import Mathlib

/-!
Verification of the breakpoint-pair clustering engine of this repository
(`structural_variant/cluster.py` and `structural_variant/breakpoint.py`).

The shallow embedding below translates the Python source into Lean.
Python exceptions are modelled by `Except PyErr`; Python `set`s of graph
nodes are modelled by `Finset`; Python numbers arising from true division
(`from __future__ import division`) are modelled by `ℚ`.

`structural_variant/interval.py` and `structural_variant/constants.py` are
not part of the source tree here; the `Interval` operations and the
`ORIENT`/`STRAND` vocabularies are modelled from the specification, as
flagged on each such definition.
-/

namespace SV

/-- Python exception kinds raised by the translated code paths. -/
inductive PyErr where
  | attributeError
  | indexError
  | zeroDivision
  | valueError
  | invalidRearrangement
  | nodeLost
  deriving DecidableEq, Repr

instance {α : Type} [DecidableEq α] : DecidableEq (Except PyErr α) := fun a b =>
  match a, b with
  | .error e, .error f =>
    if h : e = f then isTrue (by rw [h]) else isFalse (fun hh => h (Except.error.inj hh))
  | .error _, .ok _ => isFalse (fun hh => Except.noConfusion hh)
  | .ok _, .error _ => isFalse (fun hh => Except.noConfusion hh)
  | .ok a, .ok b =>
    if h : a = b then isTrue (by rw [h]) else isFalse (fun hh => h (Except.ok.inj hh))

/-!
Rational arithmetic: the source uses Python true division
(`from __future__ import division`), modelled by `ℚ`.  The library's `ℚ`
arithmetic is `@[irreducible]`, which blocks kernel evaluation of concrete
inputs, so the operations are expressed through the reducible `Rat.divInt`
constructor and proved equal to the library operations below. -/

/-- Rational addition, `a + b`, in kernel-reducible form (`qadd_eq`). -/
def qadd (a b : ℚ) : ℚ := Rat.divInt (a.num * b.den + b.num * a.den) (a.den * b.den)

/-- Rational subtraction, `a - b`, in kernel-reducible form (`qsub_eq`). -/
def qsub (a b : ℚ) : ℚ := Rat.divInt (a.num * b.den - b.num * a.den) (a.den * b.den)

/-- Rational division, `a / b` (with `a / 0 = 0`), in kernel-reducible form. -/
def qdiv (a b : ℚ) : ℚ := Rat.divInt (a.num * b.den) (a.den * b.num)

/-- Rational absolute value, `|a|`, in kernel-reducible form (`qabs_eq`). -/
def qabs (a : ℚ) : ℚ := Rat.divInt (Int.ofNat a.num.natAbs) a.den

/-- The floor of a rational (the denominator of a `Rat` is positive, so this
is floor division of the numerator). -/
def qfloor (a : ℚ) : Int := a.num.fdiv a.den

theorem qadd_eq (a b : ℚ) : qadd a b = a + b := by
  rw [qadd]
  conv_rhs => rw [← Rat.num_divInt_den a, ← Rat.num_divInt_den b]
  rw [Rat.divInt_add_divInt _ _
    (by exact_mod_cast a.den_nz) (by exact_mod_cast b.den_nz)]

theorem qsub_eq (a b : ℚ) : qsub a b = a - b := by
  have hneg : qsub a b = qadd a (-b) := by
    rw [qadd, qsub, Rat.neg_num, Rat.neg_den]
    ring_nf
  rw [hneg, qadd_eq, sub_eq_add_neg]

theorem qabs_eq (a : ℚ) : qabs a = |a| := by
  rw [qabs, Int.ofNat_eq_natCast]
  rcases le_or_lt 0 a.num with h | h
  · rw [Int.natAbs_of_nonneg h, Rat.num_divInt_den,
      abs_of_nonneg (Rat.num_nonneg.mp h)]
  · rw [Int.ofNat_natAbs_of_nonpos h.le, ← Rat.neg_divInt, Rat.num_divInt_den,
      abs_of_neg (Rat.num_neg.mp h)]

instance : LeftCommutative qadd :=
  ⟨fun a b c => by rw [qadd_eq, qadd_eq, qadd_eq, qadd_eq, add_left_comm]⟩

/-- Sum of a multiset of rationals through `qadd`; equals the ordinary sum
(`qsum_eq`). -/
def qsum (s : Multiset ℚ) : ℚ := Multiset.foldr qadd 0 s

theorem qsum_eq (s : Multiset ℚ) : qsum s = s.sum := by
  refine Multiset.induction_on s (by simp [qsum]) (fun a t ih => ?_)
  rw [qsum, Multiset.foldr_cons, ← qsum, ih, Multiset.sum_cons, qadd_eq]

/-- Modelled from the spec: `structural_variant/interval.py` is absent from
`src/`.  Spec §3: "**Interval**: `{start: int, end: int}`, `start ≤ end`.
Immutable value type."  (`end` is a Lean keyword, so the field is `stop`.)
The `start ≤ end` well-formedness condition is not baked into the type; all
intervals appearing in the claims satisfy it. -/
structure Interval where
  start : Int
  stop : Int
  deriving DecidableEq, Repr

/-- Modelled from the spec: interval length is `end - start + 1` (spec §3). -/
def Interval.length (i : Interval) : Int := i.stop - i.start + 1

/-- Modelled from the spec: interval center is `(start + end) / 2` (spec §3);
true division, so the value is rational. -/
def Interval.center (i : Interval) : ℚ := Rat.divInt (i.start + i.stop) 2

/-- Modelled from the spec: ordering of intervals is lexicographic by
`(start, end)` (spec §3 and §4.4 order groups "lexicographic by
`(start, end)`"). -/
def Interval.ltb (a b : Interval) : Bool :=
  a.start < b.start || (a.start == b.start && a.stop < b.stop)

/-- Rounding of a rational to an integer, `⌊q + 1/2⌋` (round half up); used by
the spec-modelled weighted mean ("rounded", spec §4.1).  None of the claims'
concrete inputs are sensitive to the tie-breaking convention. -/
def ratRound (q : ℚ) : Int := qfloor (qadd q (Rat.divInt 1 2))

/-- The clustering graph node type, from `cluster.py` (`IntervalPair.__init__`):
two intervals plus an opaque id (`None` or an input index).  Equality and hash
are on `(start, end, id)` (`__eq__`/`__hash__`). -/
structure IntervalPair where
  start : Interval
  end_ : Interval
  id : Option Nat := none
  deriving DecidableEq, Repr

/-- From `cluster.py` (`IntervalPair.__lt__`): `self.start < other.start`, or
equal starts and `self.end < other.end`; the id does not participate. -/
def IntervalPair.ltb (a b : IntervalPair) : Bool :=
  Interval.ltb a.start b.start || (a.start == b.start && Interval.ltb a.end_ b.end_)

/-- From `cluster.py` (`IntervalPair.dist`): the average of the distances
between the start centers and between the end centers,
`(|a.start.center - b.start.center| + |a.end.center - b.end.center|) / 2`. -/
def IntervalPair.dist (a b : IntervalPair) : ℚ :=
  qdiv
    (qadd (qabs (qsub a.start.center b.start.center))
      (qabs (qsub a.end_.center b.end_.center)))
    2

/-- Modelled from the spec: `Interval.weighted_mean` (`interval.py` is absent
from `src/`).  Spec §4.1: "combined start = Σ(start_i × len_i)/Σ(len_i)
(rounded), likewise for end".  Here the collection of intervals is obtained by
applying `f` to every member of the finite set `s` of interval pairs, exactly
as `cluster.py` builds the lists `[i.start for i in interval_pairs]` and
`[i.end for i in interval_pairs]`.  (For the empty input, where the source
raises, the rational division yields 0; no claim touches that case.) -/
def wMeanBy (s : Finset IntervalPair) (f : IntervalPair → Interval) : Interval :=
  let w : Int := Finset.sum s (fun p => (f p).length)
  { start := ratRound (qdiv ((Finset.sum s (fun p => (f p).start * (f p).length) : Int) : ℚ) (w : ℚ))
    stop := ratRound (qdiv ((Finset.sum s (fun p => (f p).stop * (f p).length) : Int) : ℚ) (w : ℚ)) }

/-- From `cluster.py` (`IntervalPair.weighted_mean`): element-wise weighted
mean of the `.start` and `.end` intervals of a group; the result carries no id
(`IntervalPair(start, end)` with `id=None`). -/
def IntervalPair.weighted_mean (s : Finset IntervalPair) : IntervalPair :=
  { start := wMeanBy s (fun p => p.start), end_ := wMeanBy s (fun p => p.end_), id := none }

/-! ### The proximity graph

`cluster.py` uses a `networkx.Graph` over `IntervalPair` nodes.  A graph is
modelled as its (insertion-ordered, duplicate-free) node list together with a
boolean adjacency function. -/

structure Graph where
  nodes : List IntervalPair
  adj : IntervalPair → IntervalPair → Bool

/-- From `cluster.py` (`is_complete`): a set of nodes `N` is a complete
subgraph iff every unordered pair drawn from `N` (in `itertools.combinations`
order) is joined by an edge.  The source also raises `AttributeError` when a
member of `N` is not a node of `G`; in `_redundant_maximal_kcliques` the
candidates are always drawn from `G`'s nodes, so that branch is unreachable
there and is not modelled. -/
def is_complete (G : Graph) : List IntervalPair → Bool
  | [] => true
  | x :: xs => xs.all (fun y => G.adj x y) && is_complete G xs

/-- From `cluster.py` (`_redundant_maximal_kcliques`, step 1): for each size
`t` from 1 to `k`, every `t`-subset of nodes is tested with `is_complete` and
collected.  The source enumerates subsets per connected component; since a
complete subgraph always lies inside a single component, enumerating subsets
of the whole node list by ascending size produces exactly the same collection
of candidate cliques (sizes still ascend, which is what the subset-removal
step depends on). -/
def kCliqueCandidates (G : Graph) (k : Nat) : List (List IntervalPair) :=
  (List.range k).flatMap (fun t => (List.sublistsLen (t + 1) G.nodes).filter (is_complete G))

/-- From `cluster.py` (`_redundant_maximal_kcliques`, subset removal): clique
`i` is kept iff no clique at a later position contains it. -/
def removeSubsets : List (Finset IntervalPair) → List (Finset IntervalPair)
  | [] => []
  | c :: rest =>
    if rest.any (fun d => decide (c ⊆ d)) then removeSubsets rest
    else c :: removeSubsets rest

/-- From `cluster.py` (`_redundant_maximal_kcliques`): the number of refined
cliques a node participates in. -/
def participationCount (cs : List (Finset IntervalPair)) (n : IntervalPair) : Nat :=
  (cs.filter (fun c => decide (n ∈ c))).length

/-- A total toll-order key for `IntervalPair`, used only to fix the
processing order of equally-participating nodes: the Python source sorts the
`(count, node)` pairs with `reverse=True`, breaking count ties by the node's
`(start, end)` order and leaving deeper ties to dictionary insertion order.
This key refines the source's `(start, end)` comparison by the id, making the
model deterministic; no claim depends on the deeper tie-break. -/
def IntervalPair.ordKey (p : IntervalPair) : List Int :=
  [p.start.start, p.start.stop, p.end_.start, p.end_.stop,
   match p.id with | none => -1 | some n => (n : Int)]

/-- Lexicographic boolean comparison of integer lists (used for `ordKey`). -/
def intListLtb : List Int → List Int → Bool
  | [], [] => false
  | [], _ :: _ => true
  | _ :: _, [] => false
  | a :: as, b :: bs => a < b || (a == b && intListLtb as bs)

/-- Stable insertion used by `pySorted`. -/
def insertLe {α : Type} (le : α → α → Bool) (x : α) : List α → List α
  | [] => [x]
  | y :: ys => if le x y then x :: y :: ys else y :: insertLe le x ys

/-- Stable ascending sort (insertion sort), modelling Python's stable
`sorted`; `le x y` means `x` may be placed before `y`. -/
def pySorted {α : Type} (le : α → α → Bool) (l : List α) : List α :=
  l.foldr (insertLe le) []

/-- From `cluster.py` (`_redundant_maximal_kcliques`): the nodes with
participation count above 1, in the order they are resolved — descending by
`(count, node)` as produced by `sorted(..., reverse=True)`. -/
def resolutionOrder (G : Graph) (cs : List (Finset IntervalPair)) : List IntervalPair :=
  pySorted
    (fun a b =>
      participationCount cs b < participationCount cs a ||
        (participationCount cs a == participationCount cs b &&
          !intListLtb a.ordKey b.ordKey))
    (G.nodes.dedup.filter (fun n => decide (1 < participationCount cs n)))

/-- From `cluster.py` (`_redundant_maximal_kcliques`): the average distance
from `node` to the other members of a clique,
`sum(node.dist(x) for x in cluster if x != node) / (len(cluster) - 1)`. -/
def avgDist (n : IntervalPair) (c : Finset IntervalPair) : ℚ :=
  qdiv (qsum (Multiset.map (fun x => IntervalPair.dist n x) (c.erase n).val))
    (qsub ((c.card : Nat) : ℚ) 1)

/-- From `cluster.py` (`_redundant_maximal_kcliques`, redundancy resolution,
one node): collect the cliques containing `n`; computing an average distance
over a clique of size 1 is Python's `0 / 0` (`ZeroDivisionError`), and taking
`min` of no distances is a `ValueError`; otherwise `n` is removed from every
clique whose average distance exceeds the smallest one. -/
def resolveNode (n : IntervalPair) (cs : List (Finset IntervalPair)) :
    Except PyErr (List (Finset IntervalPair)) :=
  let wanted := cs.filter (fun c => decide (n ∈ c))
  if wanted.any (fun c => c.card == 1) then .error .zeroDivision
  else
    match (wanted.map (avgDist n)).min? with
    | none => .error .valueError
    | some lowest =>
      .ok (cs.map (fun c => if n ∈ c ∧ lowest < avgDist n c then c.erase n else c))

/-- The redundancy-resolution loop: resolve each over-shared node in order. -/
def resolveAll : List IntervalPair → List (Finset IntervalPair) →
    Except PyErr (List (Finset IntervalPair))
  | [], cs => .ok cs
  | n :: order, cs =>
    match resolveNode n cs with
    | .error e => .error e
    | .ok cs' => resolveAll order cs'

/-- From `cluster.py` (`IntervalPair._redundant_maximal_kcliques`): reject
`k < 1` (`AttributeError`), enumerate candidate cliques up to size `k`, drop
subset-redundant ones, resolve multiply-claimed nodes, and finally assert that
no node of the graph was lost (`AssertionError`, modelled as `.nodeLost`). -/
def redundant_maximal_kcliques (G : Graph) (k : Nat) :
    Except PyErr (List (Finset IntervalPair)) :=
  if k < 1 then .error .attributeError
  else
    match resolveAll
        (resolutionOrder G (removeSubsets ((kCliqueCandidates G k).map List.toFinset)))
        (removeSubsets ((kCliqueCandidates G k).map List.toFinset)) with
    | .error e => .error e
    | .ok resolved =>
      if G.nodes.all (fun v => resolved.any (fun c => decide (v ∈ c))) then .ok resolved
      else .error .nodeLost

/-! ### Hierarchical interval merge (`_redundant_ordered_hierarchical_clustering`) -/

/-- Groups are sorted by the weighted mean of their members
(`sorted(groups, key=lambda x: IntervalPair.weighted_mean(x))`), a stable
ascending sort under `IntervalPair.__lt__`. -/
def sortGroups (gs : List (Finset IntervalPair)) : List (Finset IntervalPair) :=
  pySorted
    (fun g h => !(IntervalPair.ltb (IntervalPair.weighted_mean h) (IntervalPair.weighted_mean g)))
    gs

/-- Append `d` unless an equal group is already present
(`if d not in temp_queue: temp_queue.append(d)`). -/
def pushNew (l : List (Finset IntervalPair)) (d : Finset IntervalPair) :
    List (Finset IntervalPair) :=
  if d ∈ l then l else l ++ [d]

/-- From `cluster.py` (`_redundant_ordered_hierarchical_clustering`, one
element of a pass): the current group is compared against its predecessor
(when `i > 0`) and successor (when `i < len(queue) - 1`) by weighted-mean
distance; merged unions go to the temp queue (deduplicated), and a group that
merges with neither neighbour is emitted as complete. -/
def rohcStep (r : ℚ) (temp comp : List (Finset IntervalPair))
    (prev : Option (Finset IntervalPair)) (curr : Finset IntervalPair)
    (next : Option (Finset IntervalPair)) :
    List (Finset IntervalPair) × List (Finset IntervalPair) :=
  let curri := IntervalPair.weighted_mean curr
  let s1 :=
    match prev with
    | some p =>
      if IntervalPair.dist (IntervalPair.weighted_mean p) curri ≤ r then
        (pushNew temp (curr ∪ p), true)
      else (temp, false)
    | none => (temp, false)
  let s2 :=
    match next with
    | some nx =>
      if IntervalPair.dist (IntervalPair.weighted_mean nx) curri ≤ r then
        (pushNew s1.1 (curr ∪ nx), true)
      else (s1.1, s1.2)
    | none => (s1.1, s1.2)
  (s2.1, if s2.2 then comp else comp ++ [curr])

/-- One pass over the queue, walking the list with the previous element and a
one-element lookahead (`prev` is `none` exactly when `i = 0`, and the lookahead
is `none` exactly when `i = len(queue) - 1`). -/
def rohcPassAux (r : ℚ) (prev : Option (Finset IntervalPair))
    (rest : List (Finset IntervalPair))
    (temp comp : List (Finset IntervalPair)) :
    List (Finset IntervalPair) × List (Finset IntervalPair) :=
  match rest with
  | [] => (temp, comp)
  | curr :: rest' =>
    let s := rohcStep r temp comp prev curr rest'.head?
    rohcPassAux r (some curr) rest' s.1 s.2

/-- One full pass of the merge loop: returns the temp queue and the groups
emitted as complete during the pass. -/
def rohcPass (r : ℚ) (queue : List (Finset IntervalPair)) :
    List (Finset IntervalPair) × List (Finset IntervalPair) :=
  rohcPassAux r none queue [] []

/-- The `while len(queue) > 0` loop of
`_redundant_ordered_hierarchical_clustering`, with an explicit fuel counting
the passes; each pass re-sorts the temp queue.  `none` means the fuel ran out
with a non-empty queue (shown impossible for fuel ≥ the initial queue length,
claim C10). -/
def rohcAux (r : ℚ) : Nat → List (Finset IntervalPair) → List (Finset IntervalPair) →
    Option (List (Finset IntervalPair))
  | _, [], comp => some comp
  | 0, _ :: _, _ => none
  | fuel + 1, c :: rest, comp =>
    let s := rohcPass r (c :: rest)
    rohcAux r fuel (sortGroups s.1) (comp ++ s.2)

/-- From `cluster.py` (`IntervalPair._redundant_ordered_hierarchical_clustering`):
sort the input groups, then run merge passes until the queue is exhausted. -/
def redundant_ordered_hierarchical_clustering (groups : List (Finset IntervalPair)) (r : ℚ) :
    Option (List (Finset IntervalPair)) :=
  rohcAux r (sortGroups groups).length (sortGroups groups) []

/-- The unions of adjacent elements of the walk `prev?, rest₀, rest₁, …`:
every group a pass puts into its temp queue is one of these, which bounds the
temp queue's size by (queue length − 1) and proves termination. -/
def adjPairs : Option (Finset IntervalPair) → List (Finset IntervalPair) →
    List (Finset IntervalPair)
  | _, [] => []
  | some p, c :: rest => (c ∪ p) :: adjPairs (some c) rest
  | none, c :: rest => adjPairs (some c) rest

/-! ### `IntervalPair.cluster`: proximity graph construction plus the pipeline -/

/-- Append a node if it is not yet present (`networkx` adds the endpoint of a
new edge only when it is not already a node). -/
def addNode (ns : List IntervalPair) (v : IntervalPair) : List IntervalPair :=
  if v ∈ ns then ns else ns ++ [v]

/-- The node list resulting from the edge insertions of `IntervalPair.cluster`:
`for curr, other in itertools.combinations(pairs, 2): if curr.dist(other) <= r:
G.add_edge(curr, other)`.  Nodes enter the graph only through `add_edge`; an
input pair whose distance to every other input exceeds `r` is never added. -/
def buildNodes (pairs : List IntervalPair) (r : ℚ) : List IntervalPair :=
  (pairsOf pairs).foldl
    (fun ns uv =>
      if IntervalPair.dist uv.1 uv.2 ≤ r then addNode (addNode ns uv.1) uv.2 else ns)
    []
where
  /-- `itertools.combinations(pairs, 2)` in order. -/
  pairsOf : List IntervalPair → List (IntervalPair × IntervalPair)
    | [] => []
    | x :: xs => xs.map (fun y => (x, y)) ++ pairsOf xs

/-- The graph built by `IntervalPair.cluster`: an edge joins `u ≠ v` iff both
occur among the input pairs and `u.dist(v) ≤ r` (each unordered pair of
distinct inputs is offered to `add_edge` exactly once). -/
def buildGraph (pairs : List IntervalPair) (r : ℚ) : Graph :=
  { nodes := buildNodes pairs r
    adj := fun u v =>
      decide (u ≠ v) && decide (u ∈ pairs) && decide (v ∈ pairs) &&
        decide (IntervalPair.dist u v ≤ r) }

/-- From `cluster.py` (`IntervalPair.cluster`): build the proximity graph, run
the clique search, then the hierarchical merge.  The merge always terminates
within its fuel (claim C10), so its `Option` is collapsed with `getD []`. -/
def cluster (pairs : List IntervalPair) (r : ℚ) (k : Nat) :
    Except PyErr (List (Finset IntervalPair)) :=
  match redundant_maximal_kcliques (buildGraph pairs r) k with
  | .error e => .error e
  | .ok subgraphs =>
    .ok ((redundant_ordered_hierarchical_clustering subgraphs r).getD [])

/-! ### Breakpoints and breakpoint pairs (`breakpoint.py`)

The vocabularies come from `structural_variant/constants.py`, which is absent
from `src/`; they are modelled from the spec (§3: `strand: enum{+, -,
not-specified}`, `orient: enum{left, right, not-specified}`). -/

/-- Modelled from the spec: the orientation vocabulary (`constants.py` is
absent from `src/`). -/
inductive ORIENT where
  | LEFT
  | RIGHT
  | NS
  deriving DecidableEq, Repr

/-- Modelled from the spec: `ORIENT.expand` turns a not-specified orientation
into every concrete one and leaves a concrete orientation alone (spec §3/§4.5:
"breakpoint pairs with ambiguous (`not-specified`) orientation ... are
expanded into every concrete combination"). -/
def ORIENT.expand : ORIENT → List ORIENT
  | .NS => [.LEFT, .RIGHT]
  | o => [o]

/-- Modelled from the spec: rank used when orientation values (the characters
`'L'`, `'R'`, `'?'` of the vocabulary) are compared inside breakpoint key
tuples; `'?' < 'L' < 'R'` by character code.  No claim's concrete input
reaches an orientation comparison in a key (earlier key fields decide). -/
def ORIENT.rank : ORIENT → Nat
  | .NS => 0
  | .LEFT => 1
  | .RIGHT => 2

/-- Modelled from the spec: the strand vocabulary (`constants.py` is absent
from `src/`). -/
inductive STRAND where
  | POS
  | NEG
  | NS
  deriving DecidableEq, Repr

/-- Modelled from the spec: rank for strand comparisons inside key tuples
(characters `'+' < '-' < '?'` by character code); as with `ORIENT.rank`, no
claim's concrete input depends on it. -/
def STRAND.rank : STRAND → Nat
  | .POS => 0
  | .NEG => 1
  | .NS => 2

/-- The structural-variant types returned by `BreakpointPair.classify`. -/
inductive SVTYPE where
  | DEL
  | INS
  | DUP
  | INV
  | TRANS
  | ITRANS
  deriving DecidableEq, Repr

/-- From `breakpoint.py` (`Breakpoint.__init__`): a chromosome name, a genomic
interval, an orientation and a strand (plus the unused-by-clustering `label`
and `seq`, both defaulting to `None`). -/
structure Breakpoint where
  chr : String
  pos : Interval
  orient : ORIENT := .NS
  strand : STRAND := .NS
  label : Option String := none
  seq : Option String := none
  deriving DecidableEq, Repr

/-- Lexicographic boolean comparison of chromosome names, character by
character (Python compares the `str(chr)` values). -/
def strLtb (a b : String) : Bool :=
  charListLtb a.data b.data
where
  charListLtb : List Char → List Char → Bool
    | [], [] => false
    | [], _ :: _ => true
    | _ :: _, [] => false
    | c :: cs, d :: ds => c.toNat < d.toNat || (c.toNat == d.toNat && charListLtb cs ds)

/-- From `breakpoint.py` (`Breakpoint.key`):
`(self.chr, self.start, self.end, self.orient, self.strand)`. -/
def Breakpoint.keyLtb (a b : Breakpoint) : Bool :=
  strLtb a.chr b.chr ||
    (a.chr == b.chr &&
      (a.pos.start < b.pos.start ||
        (a.pos.start == b.pos.start &&
          (a.pos.stop < b.pos.stop ||
            (a.pos.stop == b.pos.stop &&
              (a.orient.rank < b.orient.rank ||
                (a.orient.rank == b.orient.rank && a.strand.rank < b.strand.rank)))))))

/-- The constructed breakpoint pair (`BreakpointPair.__init__`'s successful
result): the two breakpoints in canonical key order, the resolved
`opposing_strands` boolean, the `stranded` flag and the untemplated
sequence.  The mutable `flags`/`label` bookkeeping fields play no part in any
claim and are not modelled. -/
structure BreakpointPair where
  break1 : Breakpoint
  break2 : Breakpoint
  opposing_strands : Bool
  stranded : Bool := false
  untemplated_sequence : Option String := none
  deriving DecidableEq, Repr

/-- From `breakpoint.py` (`BreakpointPair.classify`): the possible
structural-variant types for a pair, by chromosome equality, opposing-strands
and the two orientations; impossible combinations raise
`InvalidRearrangement`.  The same-chromosome, non-opposing branch can fall off
the `elif` chain (both orientations not-specified), which in Python returns
`None`; that is the `Option`. -/
def BreakpointPair.classify (p : BreakpointPair) : Except PyErr (Option (List SVTYPE)) :=
  if p.break1.chr == p.break2.chr then
    if p.opposing_strands then
      if (p.break1.orient == .LEFT && p.break2.orient == .RIGHT) ||
          (p.break1.orient == .RIGHT && p.break2.orient == .LEFT) then
        .error .invalidRearrangement
      else .ok (some [.INV])
    else
      if (p.break1.orient == .LEFT && p.break2.orient == .LEFT) ||
          (p.break1.orient == .RIGHT && p.break2.orient == .RIGHT) then
        .error .invalidRearrangement
      else if p.break1.orient == .LEFT || p.break2.orient == .RIGHT then
        .ok (some [.DEL, .INS])
      else if p.break1.orient == .RIGHT || p.break2.orient == .LEFT then
        .ok (some [.DUP])
      else .ok none
  else
    if p.opposing_strands then
      if (p.break1.orient == .LEFT && p.break2.orient == .RIGHT) ||
          (p.break1.orient == .RIGHT && p.break2.orient == .LEFT) then
        .error .invalidRearrangement
      else .ok (some [.ITRANS])
    else
      if (p.break1.orient == .LEFT && p.break2.orient == .LEFT) ||
          (p.break1.orient == .RIGHT && p.break2.orient == .RIGHT) then
        .error .invalidRearrangement
      else .ok (some [.TRANS])

/-- From `breakpoint.py` (`BreakpointPair.__init__`), the checks after the
strand inference (lines 118–129): reject orientation/opposing-strand
combinations that cannot form a valid rearrangement (`InvalidRearrangement`);
require `opposing_strands` to be resolved (`AttributeError`); and finally run
`classify` as a validity check. -/
def constructChecked (brk1 brk2 : Breakpoint) (stranded : Bool) (opp : Option Bool)
    (untemplated_sequence : Option String) : Except PyErr BreakpointPair :=
  if brk1.orient != ORIENT.NS && brk2.orient != ORIENT.NS &&
      (match opp with
       | some v => (brk1.orient == brk2.orient && !v) || (brk1.orient != brk2.orient && v)
       | none => false) then
    .error .invalidRearrangement
  else
    match opp with
    | none => .error .attributeError
    | some ov =>
      let pair : BreakpointPair :=
        { break1 := brk1, break2 := brk2, opposing_strands := ov,
          stranded := stranded, untemplated_sequence := untemplated_sequence }
      match BreakpointPair.classify pair with
      | .error e => .error e
      | .ok _ => .ok pair

/-- The strand inference and cross-check of `BreakpointPair.__init__`
(`breakpoint.py` lines 111–117): when both strands are specified,
`opposing_strands` is inferred from them or, when given, must agree
(`AttributeError` otherwise). -/
def inferOpposing (brk1 brk2 : Breakpoint) (opposing_strands : Option Bool) :
    Except PyErr (Option Bool) :=
  if brk1.strand ≠ STRAND.NS ∧ brk2.strand ≠ STRAND.NS then
    let od : Bool := brk1.strand != brk2.strand
    match opposing_strands with
    | none => .ok (some od)
    | some v => if v ≠ od then .error .attributeError else .ok (some v)
  else .ok opposing_strands

/-- From `breakpoint.py` (`BreakpointPair.__init__`), the body after the
breakpoints have been put in key order: strand inference, then the
orientation/topology checks. -/
def constructOrdered (brk1 brk2 : Breakpoint) (stranded : Bool)
    (opposing_strands : Option Bool)
    (untemplated_sequence : Option String) :
    Except PyErr BreakpointPair :=
  match inferOpposing brk1 brk2 opposing_strands with
  | .error e => .error e
  | .ok opp => constructChecked brk1 brk2 stranded opp untemplated_sequence

/-- From `breakpoint.py` (`BreakpointPair.__init__`): the breakpoints are
swapped when `b1.key > b2.key`, then the checks of `constructOrdered` run. -/
def BreakpointPair.construct (b1 b2 : Breakpoint) (stranded : Bool := false)
    (opposing_strands : Option Bool := none)
    (untemplated_sequence : Option String := none) :
    Except PyErr BreakpointPair :=
  if Breakpoint.keyLtb b2 b1 then
    constructOrdered b2 b1 stranded opposing_strands untemplated_sequence
  else constructOrdered b1 b2 stranded opposing_strands untemplated_sequence

/-! ### The classification and grouping driver (`cluster_breakpoint_pairs`) -/

/-- The orientation/opposing-strands combinations `BreakpointPair.classify`
rejects (the raising patterns of `breakpoint.py` lines 175–199; they are the
same for the intra- and inter-chromosomal branches): same orientation with
non-opposing strands would have to be opposing, and differing orientations
with opposing strands would have to be non-opposing. -/
def invalidCombination (o1 o2 : ORIENT) (opposing : Bool) : Bool :=
  if opposing then
    (o1 == .LEFT && o2 == .RIGHT) || (o1 == .RIGHT && o2 == .LEFT)
  else
    (o1 == .LEFT && o2 == .LEFT) || (o1 == .RIGHT && o2 == .RIGHT)

/-- The classification key of `cluster_breakpoint_pairs`:
`(chr1, chr2, o1, o2, s1, s2, opposing_strands)`. -/
structure ClassKey where
  chr1 : String
  chr2 : String
  o1 : ORIENT
  o2 : ORIENT
  s1 : STRAND
  s2 : STRAND
  opposing : Bool
  deriving DecidableEq, Repr

/-- Whether the skip guard of `cluster_breakpoint_pairs` fires for an input:
`bpp.opposing_strands != (s1 != s2) and s1 != STRAND.NS and s2 != STRAND.NS`
(the strands are taken as-is from the input, so the guard is independent of
the expanded orientations). -/
def strandContradiction (bpp : BreakpointPair) : Bool :=
  bpp.opposing_strands != (bpp.break1.strand != bpp.break2.strand) &&
    bpp.break1.strand != STRAND.NS && bpp.break2.strand != STRAND.NS

/-- From `cluster.py` (`cluster_breakpoint_pairs`, lines 180–195): the
classification keys one input pair is filed under — the product of the
expansions of its two orientations with its chromosomes, as-is strands and
resolved `opposing_strands`, minus the combinations skipped by the
strand-contradiction guard. -/
def classificationKeys (bpp : BreakpointPair) : List ClassKey :=
  bpp.break1.orient.expand.flatMap (fun o1 =>
    bpp.break2.orient.expand.filterMap (fun o2 =>
      if strandContradiction bpp then none
      else
        some { chr1 := bpp.break1.chr, chr2 := bpp.break2.chr, o1 := o1, o2 := o2,
               s1 := bpp.break1.strand, s2 := bpp.break2.strand,
               opposing := bpp.opposing_strands }))

/-- Append a value to the list stored under a key, preserving dictionary
insertion order (`node_sets.setdefault(key, []).append(new_bpp)`). -/
def assocAppend (l : List (ClassKey × List IntervalPair)) (k : ClassKey) (v : IntervalPair) :
    List (ClassKey × List IntervalPair) :=
  match l with
  | [] => [(k, [v])]
  | (k', vs) :: rest =>
    if k' = k then (k', vs ++ [v]) :: rest else (k', vs) :: assocAppend rest k v

/-- From `cluster.py` (`cluster_breakpoint_pairs`, bucketing phase): every
input (by index) contributes the interval pair of its two breakpoint
positions, with the index as id, to every one of its classification keys. -/
def nodeSets (input : List BreakpointPair) : List (ClassKey × List IntervalPair) :=
  go 0 input []
where
  go (index : Nat) : List BreakpointPair → List (ClassKey × List IntervalPair) →
      List (ClassKey × List IntervalPair)
    | [], acc => acc
    | bpp :: rest, acc =>
      go (index + 1) rest
        ((classificationKeys bpp).foldl
          (fun acc key =>
            assocAppend acc key
              { start := bpp.break1.pos, end_ := bpp.break2.pos, id := some index })
          acc)

/-- Modelled from the spec: `Interval.__getitem__` (`interval.py` is absent
from `src/`).  The spec gives `Interval` exactly the two fields `start` and
`end`; indexing follows the repository's own two-field accessor pattern
(`BreakpointPair.__getitem__`, `breakpoint.py` lines 55–65): index 0 is the
start, index 1 is the end, anything else is an `IndexError`. -/
def Interval.getItem (i : Interval) : Nat → Except PyErr Int
  | 0 => .ok i.start
  | 1 => .ok i.stop
  | _ => .error .indexError

/-- The ids of a final group's members, mapped back to input indices
(`inputs = [input_pairs[k.id] for k in c]`; the driver always sets `id` to the
input index, so `getD 0` is never the fallback on the driver's path). -/
def memberIds (c : Finset IntervalPair) : Finset Nat :=
  c.image (fun p => p.id.getD 0)

/-- Record a consensus pair's contributing input set, merging with an existing
equal consensus (`result.setdefault(bpp, set()).update(set(inputs))`). -/
def recordResult (res : List (BreakpointPair × Finset Nat)) (bpp : BreakpointPair)
    (ids : Finset Nat) : List (BreakpointPair × Finset Nat) :=
  match res with
  | [] => [(bpp, ids)]
  | (b, s) :: rest =>
    if b = bpp then (b, s ∪ ids) :: rest else (b, s) :: recordResult rest bpp ids

/-- From `cluster.py` (`cluster_breakpoint_pairs`, lines 197–212): for each
bucket run `IntervalPair.cluster`, and for each resulting group build the
consensus `BreakpointPair` from the group's weighted mean —
`b1 = Breakpoint(chr1, ip.start[0], ip.start[1], strand=s1, orient=o1)` and
`b2 = Breakpoint(chr2, ip.end[0], ip.end[2], strand=s2, orient=o2)` (the
source indexes the end interval at 2) — then record the contributing inputs.
The contributing original pairs are identified by their input indices. -/
def cluster_breakpoint_pairs (input : List BreakpointPair) (r : ℚ) (k : Nat) :
    Except PyErr (List (BreakpointPair × Finset Nat)) :=
  (nodeSets input).foldlM
    (fun res bucket => do
      let key := bucket.1
      let clusters ← cluster bucket.2 r k
      clusters.foldlM
        (fun res c => do
          let ip := IntervalPair.weighted_mean c
          let v0 ← ip.start.getItem 0
          let v1 ← ip.start.getItem 1
          let w0 ← ip.end_.getItem 0
          let w2 ← ip.end_.getItem 2
          let b1 : Breakpoint :=
            { chr := key.chr1, pos := { start := v0, stop := v1 },
              orient := key.o1, strand := key.s1 }
          let b2 : Breakpoint :=
            { chr := key.chr2, pos := { start := w0, stop := w2 },
              orient := key.o2, strand := key.s2 }
          let bpp ← BreakpointPair.construct b1 b2 false (some key.opposing) none
          pure (recordResult res bpp (memberIds c)))
        res)
    []

/-! ### Concrete inputs used by the claims -/

/-- Example 1 node `a = (Interval(1), Interval(100))`. -/
def exA : IntervalPair := ⟨⟨1, 1⟩, ⟨100, 100⟩, none⟩

/-- Example 1 node `b = (Interval(1), Interval(101))`. -/
def exB : IntervalPair := ⟨⟨1, 1⟩, ⟨101, 101⟩, none⟩

/-- Example 1 node `c = (Interval(10), Interval(90))`. -/
def exC : IntervalPair := ⟨⟨10, 10⟩, ⟨90, 90⟩, none⟩

/-- Example 1 node `d = (Interval(15), Interval(85))`. -/
def exD : IntervalPair := ⟨⟨15, 15⟩, ⟨85, 85⟩, none⟩

/-- Example 1 node `e = (Interval(40), Interval(45))`. -/
def exE : IntervalPair := ⟨⟨40, 40⟩, ⟨45, 45⟩, none⟩

/-- The Example 1 graph: the five nodes, an edge between two distinct nodes
iff their distance is at most 10. -/
def exGraph : Graph :=
  { nodes := [exA, exB, exC, exD, exE]
    adj := fun u v => decide (u ≠ v) && decide (IntervalPair.dist u v ≤ 10) }

/-- Node `(Interval(0), Interval(0))` of the zero-division graph. -/
def zP : IntervalPair := ⟨⟨0, 0⟩, ⟨0, 0⟩, none⟩

/-- Node `(Interval(10), Interval(10))` of the zero-division graph. -/
def zN : IntervalPair := ⟨⟨10, 10⟩, ⟨10, 10⟩, none⟩

/-- Node `(Interval(20), Interval(20))` of the zero-division graph. -/
def zM : IntervalPair := ⟨⟨20, 20⟩, ⟨20, 20⟩, none⟩

/-- Node `(Interval(21), Interval(21))` of the zero-division graph. -/
def zQ : IntervalPair := ⟨⟨21, 21⟩, ⟨21, 21⟩, none⟩

/-- A proximity graph (radius 10) on four collinear point pairs whose edges
are `zP–zN`, `zN–zM` and `zM–zQ`. -/
def zGraph : Graph :=
  { nodes := [zP, zN, zM, zQ]
    adj := fun u v => decide (u ≠ v) && decide (IntervalPair.dist u v ≤ 10) }

/-- Idempotence counterexample group member `((0,0), (52,52))`. -/
def iA : IntervalPair := ⟨⟨0, 0⟩, ⟨52, 52⟩, none⟩

/-- Idempotence counterexample group member `((1,1), (0,0))`. -/
def iB : IntervalPair := ⟨⟨1, 1⟩, ⟨0, 0⟩, none⟩

/-- Idempotence counterexample group member `((2,2), (50,50))`. -/
def iC : IntervalPair := ⟨⟨2, 2⟩, ⟨50, 50⟩, none⟩

/-- An input pair far (distance 100 > 10) from its only companion. -/
def loneX : IntervalPair := ⟨⟨0, 0⟩, ⟨0, 0⟩, some 0⟩

/-- The companion of `loneX`. -/
def loneY : IntervalPair := ⟨⟨100, 100⟩, ⟨100, 100⟩, some 1⟩

/-- A fully specified, valid input breakpoint pair (chromosome 1, positions 1
and 10, orientations LEFT/RIGHT, strands not specified, non-opposing): a
deletion-like call used to drive `cluster_breakpoint_pairs`. -/
def drvPair : BreakpointPair :=
  { break1 := { chr := "1", pos := ⟨1, 1⟩, orient := .LEFT, strand := .NS }
    break2 := { chr := "1", pos := ⟨10, 10⟩, orient := .RIGHT, strand := .NS }
    opposing_strands := false }

/-- An input breakpoint pair with both orientations not specified, strands not
specified, and `opposing_strands` explicitly `false`, on one chromosome. -/
def ambPair : BreakpointPair :=
  { break1 := { chr := "1", pos := ⟨1, 1⟩, orient := .NS, strand := .NS }
    break2 := { chr := "1", pos := ⟨10, 10⟩, orient := .NS, strand := .NS }
    opposing_strands := false }

/-! ### Lemmas: the hierarchical merge terminates -/

theorem pushNew_nodup {l : List (Finset IntervalPair)} {d : Finset IntervalPair}
    (h : l.Nodup) : (pushNew l d).Nodup := by
  rw [pushNew]
  split
  · exact h
  · rename_i hd
    rw [List.nodup_append]
    exact ⟨h, List.nodup_singleton d, by simpa using fun hmem => hd hmem⟩

theorem pushNew_mem {l : List (Finset IntervalPair)} {d x : Finset IntervalPair}
    (h : x ∈ pushNew l d) : x ∈ l ∨ x = d := by
  rw [pushNew] at h
  split at h
  · exact .inl h
  · rcases List.mem_append.mp h with h' | h'
    · exact .inl h'
    · exact .inr (List.mem_singleton.mp h')

theorem rohcStep_temp_nodup (r : ℚ) (temp comp : List (Finset IntervalPair))
    (prev : Option (Finset IntervalPair)) (curr : Finset IntervalPair)
    (next : Option (Finset IntervalPair)) (h : temp.Nodup) :
    (rohcStep r temp comp prev curr next).1.Nodup := by
  rw [rohcStep.eq_def]
  cases prev <;> cases next <;>
    simp only [] <;> (try split_ifs) <;> simp_all [pushNew_nodup]

theorem rohcStep_temp_mem (r : ℚ) (temp comp : List (Finset IntervalPair))
    (prev : Option (Finset IntervalPair)) (curr : Finset IntervalPair)
    (next : Option (Finset IntervalPair)) {x : Finset IntervalPair}
    (h : x ∈ (rohcStep r temp comp prev curr next).1) :
    x ∈ temp ∨ (∃ p, prev = some p ∧ x = curr ∪ p) ∨
      (∃ nx, next = some nx ∧ x = curr ∪ nx) := by
  rw [rohcStep.eq_def] at h
  cases prev <;> cases next <;>
    simp only [] at h <;> (try split_ifs at h) <;>
      first
        | exact .inl h
        | (rcases pushNew_mem h with h' | h'
           · exact .inl h'
           · exact .inr (.inr ⟨_, rfl, h'⟩))
        | (rcases pushNew_mem h with h' | h'
           · rcases pushNew_mem h' with h'' | h''
             · exact .inl h''
             · exact .inr (.inl ⟨_, rfl, h''⟩)
           · exact .inr (.inr ⟨_, rfl, h'⟩))
        | (rcases pushNew_mem h with h' | h'
           · exact .inl h'
           · exact .inr (.inl ⟨_, rfl, h'⟩))

theorem rohcPassAux_temp_spec (r : ℚ) (rest : List (Finset IntervalPair))
    (prev : Option (Finset IntervalPair))
    (temp comp : List (Finset IntervalPair)) (hnd : temp.Nodup) :
    (rohcPassAux r prev rest temp comp).1.Nodup ∧
      ∀ x ∈ (rohcPassAux r prev rest temp comp).1,
        x ∈ temp ∨ x ∈ adjPairs prev rest := by
  induction rest generalizing prev temp comp with
  | nil => exact ⟨hnd, fun x hx => .inl hx⟩
  | cons curr rest' ih =>
    rw [rohcPassAux]
    have hstep := rohcStep_temp_nodup r temp comp prev curr rest'.head? hnd
    obtain ⟨ihnd, ihmem⟩ := ih (some curr)
      (rohcStep r temp comp prev curr rest'.head?).1
      (rohcStep r temp comp prev curr rest'.head?).2 hstep
    refine ⟨ihnd, fun x hx => ?_⟩
    rcases ihmem x hx with hx' | hx'
    · rcases rohcStep_temp_mem r temp comp prev curr rest'.head? hx' with h | h | h
      · exact .inl h
      · obtain ⟨p, hp, hxp⟩ := h
        subst hp
        refine .inr ?_
        rw [adjPairs, hxp]
        exact List.mem_cons_self _ _
      · obtain ⟨nx, hnx, hxnx⟩ := h
        rcases rest' with _ | ⟨hd, tl⟩
        · simp at hnx
        · rw [List.head?_cons, Option.some_inj] at hnx
          subst hnx
          refine .inr ?_
          cases prev with
          | none =>
            rw [adjPairs, adjPairs, hxnx, Finset.union_comm curr hd]
            exact List.mem_cons_self _ _
          | some p =>
            rw [adjPairs, adjPairs, hxnx, Finset.union_comm curr hd]
            exact List.mem_cons_of_mem _ (List.mem_cons_self _ _)
    · refine .inr ?_
      cases prev with
      | none => rw [adjPairs]; exact hx'
      | some p => rw [adjPairs]; exact List.mem_cons_of_mem _ hx'

theorem adjPairs_length_some (p : Finset IntervalPair) (l : List (Finset IntervalPair)) :
    (adjPairs (some p) l).length = l.length := by
  induction l generalizing p with
  | nil => rfl
  | cons c rest ih => rw [adjPairs, List.length_cons, ih c, List.length_cons]

theorem adjPairs_length_none (l : List (Finset IntervalPair)) :
    (adjPairs none l).length = l.length - 1 := by
  cases l with
  | nil => rfl
  | cons c rest => rw [adjPairs, adjPairs_length_some, List.length_cons, Nat.add_sub_cancel]

/-- Each pass produces a temp queue strictly shorter than a non-empty queue:
the temp queue is duplicate-free and its members all come from the
(queue length − 1) unions of adjacent queue elements. -/
theorem rohcPass_temp_length (r : ℚ) (queue : List (Finset IntervalPair)) :
    (rohcPass r queue).1.length ≤ queue.length - 1 := by
  obtain ⟨hnd, hmem⟩ := rohcPassAux_temp_spec r queue none [] [] List.nodup_nil
  have hsub : (rohcPass r queue).1 ⊆ adjPairs none queue := fun x hx =>
    (hmem x hx).resolve_left (by simp)
  calc (rohcPass r queue).1.length
      ≤ (adjPairs none queue).length := (hnd.subperm hsub).length_le
    _ = queue.length - 1 := adjPairs_length_none queue

theorem insertLe_length {α : Type} (le : α → α → Bool) (x : α) (l : List α) :
    (insertLe le x l).length = l.length + 1 := by
  induction l with
  | nil => rfl
  | cons y ys ih => rw [insertLe]; split <;> simp [ih]

theorem pySorted_length {α : Type} (le : α → α → Bool) (l : List α) :
    (pySorted le l).length = l.length := by
  induction l with
  | nil => rfl
  | cons y ys ih => rw [pySorted, List.foldr_cons, ← pySorted, insertLe_length, ih, List.length_cons]

theorem sortGroups_length (gs : List (Finset IntervalPair)) :
    (sortGroups gs).length = gs.length := pySorted_length _ gs

/-- With fuel at least the queue length, the merge loop always finishes. -/
theorem rohcAux_isSome (r : ℚ) (fuel : Nat) :
    ∀ (queue comp : List (Finset IntervalPair)), queue.length ≤ fuel →
      (rohcAux r fuel queue comp).isSome := by
  induction fuel with
  | zero =>
    intro queue comp hq
    rw [List.length_eq_zero.mp (Nat.le_zero.mp hq)]
    rfl
  | succ fuel ih =>
    intro queue comp hq
    cases queue with
    | nil => rfl
    | cons c rest =>
      rw [rohcAux]
      refine ih _ _ ?_
      rw [sortGroups_length]
      calc (rohcPass r (c :: rest)).1.length
          ≤ (c :: rest).length - 1 := rohcPass_temp_length r (c :: rest)
        _ ≤ fuel := by simpa using Nat.lt_succ_iff.mp (Nat.lt_of_lt_of_le (Nat.lt_succ_self _) hq)

/-! ### Lemmas: a pass with no mergeable neighbours emits everything -/

theorem qabs_qsub_comm (x y : ℚ) : qabs (qsub x y) = qabs (qsub y x) := by
  rw [qabs_eq, qabs_eq, qsub_eq, qsub_eq, abs_sub_comm]

/-- `IntervalPair.dist` is symmetric. -/
theorem IntervalPair.dist_comm (a b : IntervalPair) :
    IntervalPair.dist a b = IntervalPair.dist b a := by
  rw [IntervalPair.dist, IntervalPair.dist,
    qabs_qsub_comm a.start.center b.start.center,
    qabs_qsub_comm a.end_.center b.end_.center]

/-- When consecutive elements of the walk are all farther apart than `r`
(by weighted-mean distance), a pass merges nothing: the temp queue is
untouched and every element is emitted as complete, in order. -/
theorem rohcPassAux_no_merge (r : ℚ) (rest : List (Finset IntervalPair)) :
    ∀ (prev : Option (Finset IntervalPair)) (temp comp : List (Finset IntervalPair)),
      List.Chain'
        (fun g h => ¬ IntervalPair.dist (IntervalPair.weighted_mean g)
          (IntervalPair.weighted_mean h) ≤ r)
        (prev.toList ++ rest) →
      rohcPassAux r prev rest temp comp = (temp, comp ++ rest) := by
  induction rest with
  | nil =>
    intro prev temp comp _
    rw [rohcPassAux, List.append_nil]
  | cons curr rest' ih =>
    intro prev temp comp hch
    have hchTail : List.Chain'
        (fun g h => ¬ IntervalPair.dist (IntervalPair.weighted_mean g)
          (IntervalPair.weighted_mean h) ≤ r) (curr :: rest') := by
      cases prev with
      | none => exact hch
      | some p => exact (List.chain'_cons.mp hch).2
    have hnext : ∀ nx tl, rest' = nx :: tl →
        ¬ IntervalPair.dist (IntervalPair.weighted_mean nx)
          (IntervalPair.weighted_mean curr) ≤ r := by
      intro nx tl he
      rw [IntervalPair.dist_comm]
      rw [he] at hchTail
      exact (List.chain'_cons.mp hchTail).1
    have hstep : rohcStep r temp comp prev curr rest'.head? = (temp, comp ++ [curr]) := by
      cases prev with
      | none =>
        rcases rest' with _ | ⟨nx, tl⟩
        · rfl
        · rw [rohcStep.eq_def]
          simp only [List.head?_cons, if_neg (hnext nx tl rfl)]
          rfl
      | some p =>
        have hp : ¬ IntervalPair.dist (IntervalPair.weighted_mean p)
            (IntervalPair.weighted_mean curr) ≤ r := (List.chain'_cons.mp hch).1
        rcases rest' with _ | ⟨nx, tl⟩
        · rw [rohcStep.eq_def]
          simp only [List.head?_nil, if_neg hp]
          rfl
        · rw [rohcStep.eq_def]
          simp only [List.head?_cons, if_neg hp, if_neg (hnext nx tl rfl)]
          rfl
    rw [rohcPassAux, hstep, ih (some curr) temp (comp ++ [curr]) hchTail,
      List.append_assoc, List.singleton_append]

/-! ### Lemmas: the clique search never loses a node, and returns only
bounded complete subgraphs -/

theorem is_complete_iff_pairwise (G : Graph) (l : List IntervalPair) :
    is_complete G l = true ↔ l.Pairwise (fun u v => G.adj u v = true) := by
  induction l with
  | nil => simp [is_complete]
  | cons x xs ih =>
    rw [is_complete, Bool.and_eq_true, List.all_eq_true, List.pairwise_cons, ih]

theorem removeSubsets_subset {L : List (Finset IntervalPair)} {x : Finset IntervalPair}
    (h : x ∈ removeSubsets L) : x ∈ L := by
  induction L with
  | nil => exact absurd h (List.not_mem_nil x)
  | cons c rest ih =>
    rw [removeSubsets] at h
    split at h
    · exact List.mem_cons_of_mem c (ih h)
    · rcases List.mem_cons.mp h with h' | h'
      · exact h' ▸ List.mem_cons_self c rest
      · exact List.mem_cons_of_mem c (ih h')

theorem removeSubsets_covers {L : List (Finset IntervalPair)} {v : IntervalPair}
    (h : ∃ c ∈ L, v ∈ c) : ∃ c ∈ removeSubsets L, v ∈ c := by
  induction L with
  | nil => simpa using h
  | cons c rest ih =>
    rw [removeSubsets]
    split
    · rename_i hdrop
      rcases h with ⟨c', hc', hv⟩
      rcases List.mem_cons.mp hc' with h' | h'
      · subst h'
        obtain ⟨d, hd, hsub⟩ := List.any_eq_true.mp hdrop
        exact ih ⟨d, hd, (of_decide_eq_true hsub) hv⟩
      · exact ih ⟨c', h', hv⟩
    · rcases h with ⟨c', hc', hv⟩
      rcases List.mem_cons.mp hc' with h' | h'
      · exact ⟨c, List.mem_cons_self c (removeSubsets rest), h' ▸ hv⟩
      · obtain ⟨d, hd, hvd⟩ := ih ⟨c', h', hv⟩
        exact ⟨d, List.mem_cons_of_mem c hd, hvd⟩

/-- Every node of the graph lies in a singleton candidate clique (sizes start
at 1 because `k ≥ 1`). -/
theorem singleton_mem_candidates (G : Graph) (k : Nat) (hk : 1 ≤ k)
    {v : IntervalPair} (hv : v ∈ G.nodes) :
    [v] ∈ kCliqueCandidates G k := by
  rw [kCliqueCandidates]
  rw [List.mem_flatMap]
  refine ⟨0, List.mem_range.mpr hk, ?_⟩
  rw [List.mem_filter]
  constructor
  · exact List.mem_sublistsLen.mpr ⟨List.singleton_sublist.mpr hv, rfl⟩
  · rw [is_complete, is_complete]
    simp

/-- A successful `resolveNode` maps each clique to itself or to itself minus
the resolved node. -/
theorem resolveNode_shrinks {n : IntervalPair} {cs cs' : List (Finset IntervalPair)}
    (h : resolveNode n cs = .ok cs') : ∀ c' ∈ cs', ∃ c ∈ cs, c' ⊆ c := by
  rw [resolveNode] at h
  split at h
  · exact absurd h (by simp)
  · split at h
    · exact absurd h (by simp)
    · rw [Except.ok.injEq] at h
      subst h
      intro c' hc'
      obtain ⟨c, hc, hfc⟩ := List.mem_map.mp hc'
      refine ⟨c, hc, ?_⟩
      rw [← hfc]
      split
      · exact Finset.erase_subset n c
      · exact Finset.Subset.refl c

/-- A successful `resolveNode` keeps every covered node covered: nodes other
than the resolved one are never removed, and the resolved node stays in the
clique attaining the minimum average distance. -/
theorem resolveNode_covers {n : IntervalPair} {cs cs' : List (Finset IntervalPair)}
    (h : resolveNode n cs = .ok cs') {v : IntervalPair}
    (hv : ∃ c ∈ cs, v ∈ c) : ∃ c ∈ cs', v ∈ c := by
  rw [resolveNode] at h
  split at h
  · exact absurd h (by simp)
  · rename_i hnotz
    cases hmin : ((cs.filter (fun c => decide (n ∈ c))).map (avgDist n)).min? with
    | none => rw [hmin] at h; exact absurd h (by simp)
    | some lowest =>
      rw [hmin, Except.ok.injEq] at h
      subst h
      by_cases hvn : v = n
      · subst hvn
        have hmem := List.min?_mem (fun a b => min_choice a b) hmin
        obtain ⟨cstar, hcstar, havg⟩ := List.mem_map.mp hmem
        have hcs : cstar ∈ cs := (List.mem_filter.mp hcstar).1
        have hvin : v ∈ cstar := of_decide_eq_true (List.mem_filter.mp hcstar).2
        refine ⟨cstar, List.mem_map.mpr ⟨cstar, hcs, ?_⟩, hvin⟩
        rw [if_neg]
        rintro ⟨-, hlt⟩
        rw [havg] at hlt
        exact lt_irrefl lowest hlt
      · obtain ⟨c, hc, hvc⟩ := hv
        refine ⟨_, List.mem_map.mpr ⟨c, hc, rfl⟩, ?_⟩
        split
        · exact Finset.mem_erase.mpr ⟨hvn, hvc⟩
        · exact hvc

/-- `resolveNode` raises only `ZeroDivisionError` or `ValueError`. -/
theorem resolveNode_error {n : IntervalPair} {cs : List (Finset IntervalPair)} {e : PyErr}
    (h : resolveNode n cs = .error e) : e = .zeroDivision ∨ e = .valueError := by
  rw [resolveNode] at h
  split at h
  · exact .inl (Except.error.inj h).symm
  · split at h
    · exact .inr (Except.error.inj h).symm
    · exact absurd h (by simp)

theorem resolveAll_covers {order : List IntervalPair}
    {cs cs' : List (Finset IntervalPair)} (h : resolveAll order cs = .ok cs')
    {v : IntervalPair} (hv : ∃ c ∈ cs, v ∈ c) : ∃ c ∈ cs', v ∈ c := by
  induction order generalizing cs with
  | nil =>
    rw [resolveAll, Except.ok.injEq] at h
    exact h ▸ hv
  | cons n order' ih =>
    rw [resolveAll] at h
    cases hstep : resolveNode n cs with
    | error e => rw [hstep] at h; exact absurd h (by simp)
    | ok mid =>
      rw [hstep] at h
      exact ih h (resolveNode_covers hstep hv)

theorem resolveAll_shrinks {order : List IntervalPair}
    {cs cs' : List (Finset IntervalPair)} (h : resolveAll order cs = .ok cs') :
    ∀ c' ∈ cs', ∃ c ∈ cs, c' ⊆ c := by
  induction order generalizing cs with
  | nil =>
    rw [resolveAll, Except.ok.injEq] at h
    exact fun c' hc' => ⟨c', h ▸ hc', Finset.Subset.refl c'⟩
  | cons n order' ih =>
    rw [resolveAll] at h
    cases hstep : resolveNode n cs with
    | error e => rw [hstep] at h; exact absurd h (by simp)
    | ok mid =>
      rw [hstep] at h
      intro c' hc'
      obtain ⟨cm, hcm, hsub⟩ := ih h c' hc'
      obtain ⟨c, hc, hsub'⟩ := resolveNode_shrinks hstep cm hcm
      exact ⟨c, hc, hsub.trans hsub'⟩

theorem resolveAll_error {order : List IntervalPair}
    {cs : List (Finset IntervalPair)} {e : PyErr}
    (h : resolveAll order cs = .error e) : e = .zeroDivision ∨ e = .valueError := by
  induction order generalizing cs with
  | nil => rw [resolveAll] at h; exact absurd h (by simp)
  | cons n order' ih =>
    rw [resolveAll] at h
    cases hstep : resolveNode n cs with
    | error e' =>
      rw [hstep] at h
      exact (Except.error.inj h) ▸ resolveNode_error hstep
    | ok mid =>
      rw [hstep] at h
      exact ih h

/-- Every node of the graph remains covered by the refined cliques right after
subset removal. -/
theorem refined_covers (G : Graph) (k : Nat) (hk : 1 ≤ k) {v : IntervalPair}
    (hv : v ∈ G.nodes) :
    ∃ c ∈ removeSubsets ((kCliqueCandidates G k).map List.toFinset), v ∈ c := by
  refine removeSubsets_covers ⟨[v].toFinset, ?_, ?_⟩
  · exact List.mem_map.mpr ⟨[v], singleton_mem_candidates G k hk hv, rfl⟩
  · simp

/-! ### Claim theorems -/

/-- Claim C10 (confirmed): the hierarchical merge terminates on every finite
list of groups and every radius `r ≥ 0`: each pass on a non-empty queue
produces a deduplicated temp queue of adjacent unions, at most one fewer than
the queue, so a fuel equal to the initial (sorted) queue length always
suffices and the function returns a result. -/
theorem claim10_rohc_terminates (groups : List (Finset IntervalPair)) (r : ℚ)
    (hr : 0 ≤ r) :
    (redundant_ordered_hierarchical_clustering groups r).isSome := by
  rw [redundant_ordered_hierarchical_clustering]
  exact rohcAux_isSome r _ _ _ le_rfl

/-- Witness for claim C10 at a concrete input. -/
theorem claim10_rohc_terminates_witness :
    (0 : ℚ) ≤ 1 ∧
      (redundant_ordered_hierarchical_clustering [{iA}, {iB}] 1).isSome :=
  ⟨by norm_num, claim10_rohc_terminates [{iA}, {iB}] 1 (by norm_num)⟩

/-- Claim C2 (confirmed): for every graph and every `k ≥ 1`, after subset
removal and redundancy resolution every node of the graph still lies in some
returned clique, so `_redundant_maximal_kcliques` can never raise its
node-lost `AssertionError` (the only reachable failures are the
division-by-zero and empty-min errors of the resolution loop, which abort
before the sanity check). -/
theorem claim2_no_node_lost (G : Graph) (k : Nat) (hk : 1 ≤ k) :
    redundant_maximal_kcliques G k ≠ .error .nodeLost ∧
      ∀ cs, redundant_maximal_kcliques G k = .ok cs →
        ∀ v ∈ G.nodes, ∃ c ∈ cs, v ∈ c := by
  have hnk : ¬ k < 1 := Nat.not_lt.mpr hk
  rw [redundant_maximal_kcliques, if_neg hnk]
  cases hres : resolveAll
      (resolutionOrder G (removeSubsets ((kCliqueCandidates G k).map List.toFinset)))
      (removeSubsets ((kCliqueCandidates G k).map List.toFinset)) with
  | error e =>
    refine ⟨fun hcontra => ?_, fun cs hcs => by simp at hcs⟩
    rw [Except.error.injEq] at hcontra
    rcases resolveAll_error hres with h | h <;> rw [h] at hcontra <;> exact PyErr.noConfusion hcontra
  | ok resolved =>
    have hcov : ∀ v ∈ G.nodes, ∃ c ∈ resolved, v ∈ c := fun v hv =>
      resolveAll_covers hres (refined_covers G k hk hv)
    have hcheck : G.nodes.all (fun v => resolved.any (fun c => decide (v ∈ c))) = true := by
      rw [List.all_eq_true]
      intro v hv
      rw [List.any_eq_true]
      obtain ⟨c, hc, hvc⟩ := hcov v hv
      exact ⟨c, hc, decide_eq_true hvc⟩
    dsimp only
    rw [if_pos hcheck]
    refine ⟨by simp, fun cs hcs => ?_⟩
    rw [Except.ok.injEq] at hcs
    exact hcs ▸ hcov

/-- Witness for claim C2 at the Example 1 graph with `k = 10`. -/
theorem claim2_no_node_lost_witness :
    redundant_maximal_kcliques exGraph 10 ≠ .error .nodeLost ∧
      ∀ cs, redundant_maximal_kcliques exGraph 10 = .ok cs →
        ∀ v ∈ exGraph.nodes, ∃ c ∈ cs, v ∈ c :=
  claim2_no_node_lost exGraph 10 (by decide)

/-- Claim C3 (confirmed): for every (undirected) graph and every `k ≥ 1`,
every set returned by `_redundant_maximal_kcliques` has at most `k` members
and is a complete subgraph: every two distinct members are joined by an edge.
Candidate cliques are complete sublists of at most `k` nodes, and both the
subset-removal and the resolution steps only keep cliques or shrink them. -/
theorem claim3_cliques_bounded_and_complete (G : Graph) (k : Nat) (hk : 1 ≤ k)
    (hsym : ∀ u v, G.adj u v = G.adj v u) (cs : List (Finset IntervalPair))
    (hok : redundant_maximal_kcliques G k = .ok cs) :
    ∀ c ∈ cs, c.card ≤ k ∧ ∀ x ∈ c, ∀ y ∈ c, x ≠ y → G.adj x y = true := by
  have hnk : ¬ k < 1 := Nat.not_lt.mpr hk
  rw [redundant_maximal_kcliques, if_neg hnk] at hok
  have hgood : ∀ c ∈ (kCliqueCandidates G k).map List.toFinset,
      c.card ≤ k ∧ ∀ x ∈ c, ∀ y ∈ c, x ≠ y → G.adj x y = true := by
    intro c hc
    obtain ⟨l, hl, hlc⟩ := List.mem_map.mp hc
    rw [kCliqueCandidates, List.mem_flatMap] at hl
    obtain ⟨t, ht, hl'⟩ := hl
    rw [List.mem_filter] at hl'
    obtain ⟨hsl, hcomp⟩ := hl'
    obtain ⟨hsub, hlen⟩ := List.mem_sublistsLen.mp hsl
    have hsymm : Symmetric (fun u v : IntervalPair => G.adj u v = true) := by
      intro a b hab
      rw [hsym]
      exact hab
    constructor
    · rw [← hlc]
      calc l.toFinset.card ≤ l.length := List.toFinset_card_le l
        _ = t + 1 := hlen
        _ ≤ k := Nat.succ_le_of_lt (List.mem_range.mp ht)
    · intro x hx y hy hxy
      have hpw := (is_complete_iff_pairwise G l).mp hcomp
      rw [← hlc] at hx hy
      exact hpw.forall hsymm (List.mem_toFinset.mp hx) (List.mem_toFinset.mp hy) hxy
  cases hres : resolveAll
      (resolutionOrder G (removeSubsets ((kCliqueCandidates G k).map List.toFinset)))
      (removeSubsets ((kCliqueCandidates G k).map List.toFinset)) with
  | error e => rw [hres] at hok; exact absurd hok (by simp)
  | ok resolved =>
    rw [hres] at hok
    dsimp only at hok
    split at hok
    · rw [Except.ok.injEq] at hok
      subst hok
      intro c hc
      obtain ⟨cm, hcm, hsub⟩ := resolveAll_shrinks hres c hc
      obtain ⟨hcard, hadj⟩ := hgood cm (removeSubsets_subset hcm)
      exact ⟨le_trans (Finset.card_le_card hsub) hcard,
        fun x hx y hy hxy => hadj x (hsub hx) y (hsub hy) hxy⟩
    · exact absurd hok (by simp)

/-- Witness for claim C3 at the Example 1 graph with `k = 10`, instantiated at
the returned clique `{exA, exB}` and its two members. -/
theorem claim3_cliques_bounded_and_complete_witness :
    ({exA, exB} : Finset IntervalPair).card ≤ 10 ∧ exGraph.adj exA exB = true :=
  have h := claim3_cliques_bounded_and_complete exGraph 10 (by decide)
    (fun u v => by
      show (decide (u ≠ v) && decide (IntervalPair.dist u v ≤ 10)) =
        (decide (v ≠ u) && decide (IntervalPair.dist v u ≤ 10))
      rw [IntervalPair.dist_comm, decide_eq_decide.mpr ne_comm])
    [{exE}, {exC, exD}, {exA, exB}] (by decide) {exA, exB} (by simp)
  ⟨h.1, h.2 exA (by decide) exB (by decide) (by decide)⟩

/-- Claim C1 (code bug): `IntervalPair.cluster` adds nodes to the proximity
graph only through `add_edge`, so an input pair farther than `r` from every
other input is never added as a node and silently vanishes: with the two
inputs `loneX`, `loneY` at distance 100 and radius 10 the graph has no nodes
at all and `cluster` returns no groups, losing both inputs — the claim (every
input is a node, degree 0 allowed, and reaches the clique search) fails on
this input. -/
theorem claim1_isolated_inputs_dropped :
    buildNodes [loneX, loneY] 10 = [] ∧ cluster [loneX, loneY] 10 10 = .ok [] := by
  decide

/-- Claim C4 (code bug): on the first bucket that yields a group,
`cluster_breakpoint_pairs` evaluates `ip.end[2]` (line 208) while building the
consensus second breakpoint; an interval has only the indices 0 and 1, so the
whole call raises `IndexError` instead of producing the claimed consensus
mapping.  Two identical deletion-like inputs form one two-member group and
trigger it. -/
theorem claim4_consensus_construction_index_error :
    cluster_breakpoint_pairs [drvPair, drvPair] 10 10 = .error .indexError := by
  decide

/-- Claim C5, counterexample: the hierarchical merge is not idempotent on its
own output.  On the three singleton groups of `iA`, `iB`, `iC` with radius 26
the first run returns `[{iA}, {iB, iC}]` (`{iA}` is emitted in the first pass,
the merged group in the second), but running the function again on that output
merges the two groups into `[{iA, iB, iC}]`. -/
theorem claim5_not_idempotent_cex :
    redundant_ordered_hierarchical_clustering [{iA}, {iB}, {iC}] 26 =
        some [{iA}, {iB, iC}] ∧
      redundant_ordered_hierarchical_clustering [{iA}, {iB, iC}] 26 =
        some [{iA, iB, iC}] ∧
      ([{iA}, {iB, iC}] : List (Finset IntervalPair)) ≠ [{iA, iB, iC}] := by
  decide

/-- Claim C5 (amended): the merge is a fixed point wherever no merge is
possible at all — if every two adjacent groups of the sorted input are
farther apart than `r` (weighted-mean distance), the function returns exactly
the sorted input.  In general idempotence fails (see the counterexample):
groups emitted in different passes can still be within `r` of each other. -/
theorem claim5_amended_no_merge_fixed_point (gs : List (Finset IntervalPair)) (r : ℚ)
    (h : List.Chain'
      (fun g h' => ¬ IntervalPair.dist (IntervalPair.weighted_mean g)
        (IntervalPair.weighted_mean h') ≤ r) (sortGroups gs)) :
    redundant_ordered_hierarchical_clustering gs r = some (sortGroups gs) := by
  rw [redundant_ordered_hierarchical_clustering]
  rcases hq : sortGroups gs with _ | ⟨c, rest⟩
  · rfl
  · rw [hq] at h
    have hpass : rohcPass r (c :: rest) = ([], c :: rest) := by
      rw [rohcPass]
      exact rohcPassAux_no_merge r (c :: rest) none [] [] h
    rw [List.length_cons, rohcAux, hpass]
    simp [rohcAux, sortGroups, pySorted]

/-- Witness for the amended claim C5: two singleton groups 100 apart with
radius 10 are returned unchanged (in sorted order). -/
theorem claim5_amended_no_merge_fixed_point_witness :
    List.Chain'
        (fun g h' => ¬ IntervalPair.dist (IntervalPair.weighted_mean g)
          (IntervalPair.weighted_mean h') ≤ (10 : ℚ))
        (sortGroups [{loneX}, {loneY}]) ∧
      redundant_ordered_hierarchical_clustering [{loneX}, {loneY}] 10 =
        some (sortGroups [{loneX}, {loneY}]) :=
  have hch : List.Chain'
      (fun g h' => ¬ IntervalPair.dist (IntervalPair.weighted_mean g)
        (IntervalPair.weighted_mean h') ≤ (10 : ℚ))
      (sortGroups [{loneX}, {loneY}]) := by
    have hsort : sortGroups [{loneX}, {loneY}] = [({loneX} : Finset IntervalPair), {loneY}] := by
      decide
    rw [hsort]
    exact List.chain'_cons.mpr ⟨by decide, List.chain'_singleton _⟩
  ⟨hch, claim5_amended_no_merge_fixed_point [{loneX}, {loneY}] 10 hch⟩

/-- Claim C8 (confirmed): on the Example 1 graph the base edges are exactly
`a–b`, `a–c`, `b–c` and `c–d`, and `_redundant_maximal_kcliques` with `k = 10`
returns exactly the three cliques `{a, b}`, `{c, d}` and `{e}` (the list below
contains precisely those three sets). -/
theorem claim8_example_cliques :
    (exGraph.adj exA exB ∧ exGraph.adj exA exC ∧ exGraph.adj exB exC ∧
        exGraph.adj exC exD ∧
      ¬exGraph.adj exA exD ∧ ¬exGraph.adj exB exD ∧ ¬exGraph.adj exA exE ∧
        ¬exGraph.adj exB exE ∧ ¬exGraph.adj exC exE ∧ ¬exGraph.adj exD exE) ∧
    redundant_maximal_kcliques exGraph 10 = .ok [{exE}, {exC, exD}, {exA, exB}] := by
  decide

/-- Claim C9 (code bug): the redundancy-resolution loop can divide by zero.
In `zGraph` (edges `zP–zN`, `zN–zM`, `zM–zQ`, default `k = 10`) the maximal
cliques are `{zP,zN}`, `{zN,zM}`, `{zM,zQ}`; resolving `zM` first removes it
from `{zN,zM}`, leaving the singleton `{zN}`, and resolving `zN` then computes
an average distance over a one-element clique — `0 / 0`, a
`ZeroDivisionError` — contradicting the claim that the divisor is never
zero. -/
theorem claim9_zero_division_reachable :
    redundant_maximal_kcliques zGraph 10 = .error .zeroDivision := by
  decide

/-- Claim C6, counterexample: the driver can file a pair under a bucket whose
orientation/strand/opposing-strands combination is an invalid rearrangement
topology.  `ambPair` (orientations not specified, same chromosome,
`opposing_strands = false`) is filed under the key with both orientations
LEFT, which `classify` rejects; constructing the corresponding consensus
breakpoint pair indeed fails with `InvalidRearrangement`. -/
theorem claim6_invalid_bucket_cex :
    ({ chr1 := "1", chr2 := "1", o1 := .LEFT, o2 := .LEFT, s1 := .NS, s2 := .NS,
        opposing := false } : ClassKey) ∈ classificationKeys ambPair ∧
      invalidCombination .LEFT .LEFT false = true ∧
      BreakpointPair.construct
          { chr := "1", pos := ⟨1, 1⟩, orient := .LEFT, strand := .NS }
          { chr := "1", pos := ⟨10, 10⟩, orient := .LEFT, strand := .NS }
          false (some false) none = .error .invalidRearrangement := by
  decide

/-- Claim C6 (amended): a classification key is produced for an input exactly
when it carries the input's chromosomes, strands (as-is, no strand expansion)
and resolved `opposing_strands`, its orientations come from the expansion of
the input's (possibly not-specified) orientations, and the input's strands do
not contradict its `opposing_strands` (otherwise every combination is
skipped).  No orientation-topology validity is enforced — see the
counterexample for an invalid bucket. -/
theorem claim6_amended_bucket_characterization (bpp : BreakpointPair) (key : ClassKey) :
    key ∈ classificationKeys bpp ↔
      (key.chr1 = bpp.break1.chr ∧ key.chr2 = bpp.break2.chr ∧
        key.o1 ∈ bpp.break1.orient.expand ∧ key.o2 ∈ bpp.break2.orient.expand ∧
        key.s1 = bpp.break1.strand ∧ key.s2 = bpp.break2.strand ∧
        key.opposing = bpp.opposing_strands ∧
        strandContradiction bpp = false) := by
  obtain ⟨c1, c2, o1, o2, s1, s2, op⟩ := key
  simp only [classificationKeys, List.mem_flatMap, List.mem_filterMap]
  constructor
  · rintro ⟨x1, hx1, x2, hx2, hif⟩
    rcases hsc : strandContradiction bpp with _ | _
    · rw [hsc, if_neg (by simp)] at hif
      rw [Option.some_inj, ClassKey.mk.injEq] at hif
      obtain ⟨h1, h2, h3, h4, h5, h6, h7⟩ := hif
      subst h1; subst h2; subst h3; subst h4; subst h5; subst h6; subst h7
      exact ⟨rfl, rfl, hx1, hx2, rfl, rfl, rfl, rfl⟩
    · rw [hsc, if_pos (by simp)] at hif
      exact absurd hif (by simp)
  · rintro ⟨h1, h2, h3, h4, h5, h6, h7, h8⟩
    subst h1; subst h2; subst h5; subst h6; subst h7
    exact ⟨o1, h3, o2, h4, by rw [h8, if_neg (by simp)]⟩

/-- `classify` raises `InvalidRearrangement` whenever the pair's
orientation/opposing-strands combination matches a rejecting pattern. -/
theorem classify_invalid (p : BreakpointPair)
    (h : invalidCombination p.break1.orient p.break2.orient p.opposing_strands = true) :
    BreakpointPair.classify p = .error .invalidRearrangement := by
  rw [invalidCombination] at h
  rw [BreakpointPair.classify]
  cases hb : p.opposing_strands <;> rw [hb] at h <;>
    simp only [if_true, if_false, Bool.false_eq_true, ite_true, ite_false] at h <;>
      by_cases hc : p.break1.chr == p.break2.chr <;> simp [hc, h]

/-- `classify` succeeds whenever the pair's orientation/opposing-strands
combination matches no rejecting pattern. -/
theorem classify_valid (p : BreakpointPair)
    (h : invalidCombination p.break1.orient p.break2.orient p.opposing_strands = false) :
    ∃ res, BreakpointPair.classify p = .ok res := by
  rw [invalidCombination] at h
  rw [BreakpointPair.classify]
  cases hb : p.opposing_strands <;> rw [hb] at h <;>
    simp only [if_true, if_false, Bool.false_eq_true, ite_true, ite_false] at h <;>
      by_cases hc : p.break1.chr == p.break2.chr <;> simp [hc, h] <;> split_ifs <;> simp

/-- With `opposing_strands = some v`, the topology check of
`constructChecked` fires exactly on `invalidCombination` (for unspecified
orientations both sides are false), and `classify` agrees on the remaining
combinations. -/
theorem constructChecked_invalid_iff (x1 x2 : Breakpoint) (v : Bool) :
    (constructChecked x1 x2 false (some v) none = .error .invalidRearrangement ↔
      invalidCombination x1.orient x2.orient v = true) := by
  have hcond : (x1.orient != ORIENT.NS && x2.orient != ORIENT.NS &&
      ((x1.orient == x2.orient && !v) || (x1.orient != x2.orient && v))) =
      invalidCombination x1.orient x2.orient v := by
    cases x1.orient <;> cases x2.orient <;> cases v <;> rfl
  rw [constructChecked]
  simp only [hcond]
  cases hinv : invalidCombination x1.orient x2.orient v
  · simp only [Bool.false_eq_true, if_false]
    obtain ⟨res, hres⟩ := classify_valid
      { break1 := x1, break2 := x2, opposing_strands := v, stranded := false,
        untemplated_sequence := none } hinv
    rw [hres]
    simp
  · simp

/-- `constructOrdered` with compatible strands passes `some v` through the
strand inference unchanged. -/
theorem constructOrdered_eq_checked (x1 x2 : Breakpoint) (v : Bool)
    (hs : x1.strand = STRAND.NS ∨ x2.strand = STRAND.NS ∨ v = (x1.strand != x2.strand)) :
    constructOrdered x1 x2 false (some v) none = constructChecked x1 x2 false (some v) none := by
  rw [constructOrdered, inferOpposing]
  by_cases hstr : x1.strand ≠ STRAND.NS ∧ x2.strand ≠ STRAND.NS
  · have hv : v = (x1.strand != x2.strand) := by
      rcases hs with h | h | h
      · exact absurd h hstr.1
      · exact absurd h hstr.2
      · exact h
    rw [if_pos hstr]
    simp [hv]
  · rw [if_neg hstr]

/-- `invalidCombination` does not depend on the order of the orientations. -/
theorem invalidCombination_comm (o1 o2 : ORIENT) (v : Bool) :
    invalidCombination o1 o2 v = invalidCombination o2 o1 v := by
  cases o1 <;> cases o2 <;> cases v <;> rfl

/-- Claim C7 (confirmed): when both orientations are specified,
`opposing_strands` is explicitly known and the strands do not conflict with
it, `BreakpointPair` construction fails with `InvalidRearrangement` precisely
when the orientation/opposing-strands combination matches no valid
rearrangement topology; the chromosomes play no role in the check. -/
theorem claim7_invalid_rearrangement_iff (b1 b2 : Breakpoint) (v : Bool)
    (ho1 : b1.orient ≠ ORIENT.NS) (ho2 : b2.orient ≠ ORIENT.NS)
    (hs : b1.strand = STRAND.NS ∨ b2.strand = STRAND.NS ∨ v = (b1.strand != b2.strand)) :
    (BreakpointPair.construct b1 b2 false (some v) none = .error .invalidRearrangement ↔
      invalidCombination b1.orient b2.orient v = true) := by
  have hbne : (b1.strand != b2.strand) = (b2.strand != b1.strand) := by
    cases b1.strand <;> cases b2.strand <;> rfl
  rw [BreakpointPair.construct]
  by_cases hswap : Breakpoint.keyLtb b2 b1
  · rw [if_pos hswap, constructOrdered_eq_checked b2 b1 v (by rw [← hbne]; tauto),
      constructChecked_invalid_iff b2 b1 v, invalidCombination_comm]
  · rw [if_neg hswap, constructOrdered_eq_checked b1 b2 v hs,
      constructChecked_invalid_iff b1 b2 v]

/-- Witness for claim C7: both orientations LEFT, `opposing_strands = False`,
both breakpoints on chromosome 1 — construction fails with
`InvalidRearrangement`. -/
theorem claim7_invalid_rearrangement_iff_witness :
    BreakpointPair.construct
        { chr := "1", pos := ⟨5, 5⟩, orient := .LEFT, strand := .NS }
        { chr := "1", pos := ⟨20, 20⟩, orient := .LEFT, strand := .NS }
        false (some false) none = .error .invalidRearrangement :=
  (claim7_invalid_rearrangement_iff
    { chr := "1", pos := ⟨5, 5⟩, orient := .LEFT, strand := .NS }
    { chr := "1", pos := ⟨20, 20⟩, orient := .LEFT, strand := .NS }
    false (by decide) (by decide) (Or.inl (by decide))).mpr (by decide)

end SV




